import Mathlib

/-!
Shallow embedding of the scene-assembly pipeline of the short-video-maker
server. The embedded code comes from src/server.js (which contains the
multi-clip variant of the service followed by the fast single-clip variant)
and from the legacy single-scene variant in src/unnamed/part_000.
Durations and seconds are modelled as rationals; JavaScript strings are
modelled as Lean strings or as lists of characters where per-character
processing matters. Media-tool invocations are modelled by the exact
argument lists the code passes to the subprocess.
-/

/-- JavaScript falsy-or on numbers, as used in expressions such as
(cand.dur || minClipSec) in buildSceneWithVoice: a zero left operand
selects the right operand, any other number selects itself. -/
def jsOr (a b : ℚ) : ℚ := if a = 0 then b else a

/-- Per-scene target visual duration, from buildSceneWithVoice:
targetSec = Math.max(3, Math.min(60, vSec)). -/
def targetSecOf (vSec : ℚ) : ℚ := max 3 (min 60 vSec)

/-- Trim duration handed to the encoder by makeSubsegment: the -t argument
is String(Math.max(0.6, takeSec)). -/
def makeSubsegmentTrimSec (takeSec : ℚ) : ℚ := max 0.6 takeSec

/-- One usable footage candidate as consumed by the greedy selection loop of
buildSceneWithVoice: its downloadable link and its source-clip duration. -/
structure Cand where
  link : String
  dur : ℚ
deriving DecidableEq

/-- The per-candidate take computed in the greedy loop of buildSceneWithVoice:
Math.min(Math.max(minClipSec, Math.min(cand.dur || minClipSec, remaining)), remaining). -/
def takeAmount (minClipSec remaining dur : ℚ) : ℚ :=
  min (max minClipSec (min (jsOr dur minClipSec) remaining)) remaining

/-- The take formula exactly as the spec words it (min(max(minClipSec,
min(candidateDuration, remaining)), remaining)), written only to be compared
with the implementation formula takeAmount. -/
def specTake (minClipSec remaining dur : ℚ) : ℚ :=
  min (max minClipSec (min dur remaining)) remaining

/-- The greedy candidate walk of buildSceneWithVoice (multi-clip variant):
break when chosen.length >= maxClips; skip a candidate whose take is <= 0.75;
otherwise push it, subtract the take from remaining and break once
remaining <= 0.75. Returns the chosen (link, take) pairs in selection order. -/
def chooseLoop (minClipSec : ℚ) (maxClips : ℕ) : List Cand → ℚ → ℕ → List (String × ℚ)
  | [], _, _ => []
  | c :: rest, remaining, count =>
    if maxClips ≤ count then []
    else if takeAmount minClipSec remaining c.dur ≤ 0.75 then
      chooseLoop minClipSec maxClips rest remaining count
    else if remaining - takeAmount minClipSec remaining c.dur ≤ 0.75 then
      [(c.link, takeAmount minClipSec remaining c.dur)]
    else
      (c.link, takeAmount minClipSec remaining c.dur) ::
        chooseLoop minClipSec maxClips rest (remaining - takeAmount minClipSec remaining c.dur) (count + 1)

/-- The fallback take used when the greedy loop selected nothing:
Math.min(targetSec, Math.max(minClipSec, oriented[0].dur || minClipSec)). -/
def fallbackTake (minClipSec targetSec : ℚ) (c : Cand) : ℚ :=
  min targetSec (max minClipSec (jsOr c.dur minClipSec))

/-- Footage selection for one scene, from buildSceneWithVoice (multi-clip
variant): run the greedy loop over the ranked candidates; if it chose
nothing, take a single fallback segment from the best-ranked candidate.
On an empty candidate list the JavaScript would fault instead (modelled
separately by buildSceneSelect); here the empty list is returned. -/
def selectFootage (minClipSec : ℚ) (maxClips : ℕ) (targetSec : ℚ) (oriented : List Cand) :
    List (String × ℚ) :=
  match chooseLoop minClipSec maxClips oriented targetSec 0 with
  | [] =>
    match oriented with
    | [] => []
    | c :: _ => [(c.link, fallbackTake minClipSec targetSec c)]
  | chosen => chosen

/-- C2: the target visual duration is clamp(narrationSeconds, 3, 60): it is
always within [3, 60], equals the clamp of the narration duration, and in
particular a 2-second narration yields target 3 and a 90-second narration
yields target 60. -/
theorem targetSec_clamped (vSec : ℚ) :
    3 ≤ targetSecOf vSec ∧ targetSecOf vSec ≤ 60 ∧
    targetSecOf vSec = min 60 (max 3 vSec) ∧
    targetSecOf 2 = 3 ∧ targetSecOf 90 = 60 := by
  refine ⟨le_max_left _ _, max_le (by norm_num) (min_le_left _ _), ?_, ?_, ?_⟩
  · unfold targetSecOf
    rw [max_min_distrib_left]
    norm_num
  · unfold targetSecOf
    norm_num
  · unfold targetSecOf
    norm_num

/-- C8: the trim duration actually passed to the encoder by makeSubsegment is
at least the 0.6-second floor and is never below the requested take, so a
near-zero trim request from upstream duration math never reaches the encoder. -/
theorem makeSubsegment_trim_floor (takeSec : ℚ) :
    0.6 ≤ makeSubsegmentTrimSec takeSec ∧ takeSec ≤ makeSubsegmentTrimSec takeSec :=
  ⟨le_max_left _ _, le_max_right _ _⟩

theorem takeAmount_le_remaining (minClipSec remaining dur : ℚ) :
    takeAmount minClipSec remaining dur ≤ remaining :=
  min_le_right _ _

theorem chooseLoop_mem_take (minClipSec : ℚ) (maxClips : ℕ) :
    ∀ (cands : List Cand) (remaining : ℚ) (count : ℕ) (p : String × ℚ),
      p ∈ chooseLoop minClipSec maxClips cands remaining count → 0.75 < p.2 := by
  intro cands
  induction cands with
  | nil => intro remaining count p h; simp [chooseLoop] at h
  | cons c rest ih =>
    intro remaining count p h
    unfold chooseLoop at h
    by_cases hk : maxClips ≤ count
    · simp [hk] at h
    · rw [if_neg hk] at h
      by_cases ht : takeAmount minClipSec remaining c.dur ≤ 0.75
      · rw [if_pos ht] at h
        exact ih remaining count p h
      · rw [if_neg ht] at h
        by_cases hr : remaining - takeAmount minClipSec remaining c.dur ≤ 0.75
        · rw [if_pos hr] at h
          simp at h
          rw [h]
          simpa using lt_of_not_le ht
        · rw [if_neg hr] at h
          rcases List.mem_cons.mp h with h | h
          · rw [h]
            simpa using lt_of_not_le ht
          · exact ih _ _ p h

theorem chooseLoop_length (minClipSec : ℚ) (maxClips : ℕ) :
    ∀ (cands : List Cand) (remaining : ℚ) (count : ℕ),
      (chooseLoop minClipSec maxClips cands remaining count).length ≤ maxClips - count := by
  intro cands
  induction cands with
  | nil => intro remaining count; simp [chooseLoop]
  | cons c rest ih =>
    intro remaining count
    unfold chooseLoop
    by_cases hk : maxClips ≤ count
    · simp [hk]
    · rw [if_neg hk]
      by_cases ht : takeAmount minClipSec remaining c.dur ≤ 0.75
      · rw [if_pos ht]
        exact ih remaining count
      · rw [if_neg ht]
        by_cases hr : remaining - takeAmount minClipSec remaining c.dur ≤ 0.75
        · rw [if_pos hr]
          simp
          omega
        · rw [if_neg hr]
          have := ih (remaining - takeAmount minClipSec remaining c.dur) (count + 1)
          simp only [List.length_cons]
          omega

theorem chooseLoop_stops (minClipSec : ℚ) (maxClips : ℕ) :
    ∀ (cands : List Cand) (remaining : ℚ) (count : ℕ),
      remaining ≤ 0.75 → chooseLoop minClipSec maxClips cands remaining count = [] := by
  intro cands
  induction cands with
  | nil => intro remaining count _; simp [chooseLoop]
  | cons c rest ih =>
    intro remaining count hrem
    unfold chooseLoop
    by_cases hk : maxClips ≤ count
    · simp [hk]
    · rw [if_neg hk]
      have ht : takeAmount minClipSec remaining c.dur ≤ 0.75 :=
        le_trans (takeAmount_le_remaining _ _ _) hrem
      rw [if_pos ht]
      exact ih remaining count hrem

/-- C1 (amended): for a scene with a non-empty ranked candidate list, and
provided the minimum-clip-seconds parameter exceeds 0.75 (true for the
defaults 4 and 3) and the max-clip-count is at least 1, footage selection
(a) selects at least one candidate, (b) never selects a candidate
contributing at most 0.75 seconds, (c) never selects more than the
configured max-clip-count, (d) computes each greedy take by the formula
min(max(minClipSec, min(candidateDuration, remaining)), remaining), and
(e) the greedy walk selects nothing once the remaining time is at most
0.75 seconds. Without the bound on minClipSec the fallback can select a
candidate contributing at most 0.75 seconds. -/
theorem selectFootage_greedy_amended (minClipSec : ℚ) (maxClips : ℕ) (targetSec : ℚ)
    (oriented : List Cand) (hne : oriented ≠ []) (hmin : 0.75 < minClipSec)
    (htarget : 3 ≤ targetSec) (hmax : 1 ≤ maxClips) :
    selectFootage minClipSec maxClips targetSec oriented ≠ [] ∧
    (∀ p ∈ selectFootage minClipSec maxClips targetSec oriented, 0.75 < p.2) ∧
    (selectFootage minClipSec maxClips targetSec oriented).length ≤ maxClips ∧
    (∀ remaining dur : ℚ, 0 ≤ remaining →
      takeAmount minClipSec remaining dur = specTake minClipSec remaining dur) ∧
    (∀ (cands : List Cand) (remaining : ℚ) (count : ℕ), remaining ≤ 0.75 →
      chooseLoop minClipSec maxClips cands remaining count = []) := by
  have hfall : ∀ c : Cand, 0.75 < fallbackTake minClipSec targetSec c := by
    intro c
    unfold fallbackTake
    apply lt_min
    · linarith
    · exact lt_of_lt_of_le hmin (le_max_left _ _)
  refine ⟨?_, ?_, ?_, ?_, chooseLoop_stops minClipSec maxClips⟩
  · unfold selectFootage
    rcases h : chooseLoop minClipSec maxClips oriented targetSec 0 with _ | ⟨p, ps⟩
    · rcases oriented with _ | ⟨c, cs⟩
      · exact absurd rfl hne
      · simp
    · simp
  · intro p hp
    unfold selectFootage at hp
    rcases h : chooseLoop minClipSec maxClips oriented targetSec 0 with _ | ⟨q, qs⟩
    · rw [h] at hp
      rcases oriented with _ | ⟨c, cs⟩
      · exact absurd rfl hne
      · simp at hp
        rw [hp]
        exact hfall c
    · rw [h] at hp
      exact chooseLoop_mem_take minClipSec maxClips oriented targetSec 0 p (h ▸ hp)
  · unfold selectFootage
    rcases h : chooseLoop minClipSec maxClips oriented targetSec 0 with _ | ⟨q, qs⟩
    · rcases oriented with _ | ⟨c, cs⟩
      · exact absurd rfl hne
      · simpa using hmax
    · have := chooseLoop_length minClipSec maxClips oriented targetSec 0
      rw [h] at this
      simpa using this
  · intro remaining dur hrem
    have hm : (0 : ℚ) ≤ minClipSec := le_of_lt (lt_trans (by norm_num) hmin)
    unfold takeAmount specTake jsOr
    by_cases hd : dur = 0
    · rw [if_pos hd, hd]
      rw [min_eq_left hrem]
      rw [max_eq_left hm]
      have : min minClipSec remaining ≤ minClipSec := min_le_left _ _
      rw [max_eq_left this]
    · rw [if_neg hd]

/-- Witness for C1 (amended) at a concrete scene: one candidate of duration
30, default minClipSec 4 and maxClips 4, target 10 seconds. -/
theorem selectFootage_greedy_amended_witness :
    selectFootage 4 4 10 [⟨"a", 30⟩] ≠ [] ∧
    (∀ p ∈ selectFootage 4 4 10 [⟨"a", 30⟩], 0.75 < p.2) ∧
    (selectFootage 4 4 10 [⟨"a", 30⟩]).length ≤ 4 ∧
    (∀ remaining dur : ℚ, 0 ≤ remaining →
      takeAmount 4 remaining dur = specTake 4 remaining dur) ∧
    (∀ (cands : List Cand) (remaining : ℚ) (count : ℕ), remaining ≤ 0.75 →
      chooseLoop 4 4 cands remaining count = []) :=
  selectFootage_greedy_amended 4 4 10 [⟨"a", 30⟩] (by simp) (by norm_num) (by norm_num)
    (by norm_num)

/-- C1 counterexample: with minClipSec = 0.5 (below the 0.75 skip threshold)
and a single candidate of duration 0.5, the greedy loop skips the candidate
but the fallback then selects it with a take of 0.5 <= 0.75 seconds, so
footage selection does select a candidate contributing at most 0.75 seconds. -/
theorem selectFootage_fallback_counterexample :
    selectFootage 0.5 4 3 [⟨"u", 0.5⟩] = [("u", 0.5)] ∧ ¬ (0.75 < (0.5 : ℚ)) := by
  constructor
  · norm_num [selectFootage, chooseLoop, takeAmount, jsOr, fallbackTake, min_def, max_def]
  · norm_num

/-- The footage search query for a scene, from buildSceneWithVoice:
q = (search || text || "nature"), where JavaScript treats exactly the empty
string as falsy. -/
def sceneQuery (search text : String) : String :=
  if search ≠ "" then search else if text ≠ "" then text else "nature"

/-- C10: the query fallback chain is search, then narration text, then the
literal "nature"; in particular a scene whose search and text are both empty
is searched under "nature". -/
theorem sceneQuery_fallback (search text : String) :
    (search = "" → text = "" → sceneQuery search text = "nature") ∧
    (search ≠ "" → sceneQuery search text = search) ∧
    (search = "" → text ≠ "" → sceneQuery search text = text) := by
  refine ⟨?_, ?_, ?_⟩
  · intro hs ht
    simp [sceneQuery, hs, ht]
  · intro hs
    simp [sceneQuery, hs]
  · intro hs ht
    simp [sceneQuery, hs, ht]

/-- Witness for C10: the empty-text, empty-search scene is searched under
the default term. -/
theorem sceneQuery_fallback_witness : sceneQuery "" "" = "nature" :=
  (sceneQuery_fallback "" "").1 rfl rfl

/-- The ffmpeg argument list of concatSegments in the multi-clip variant of
src/server.js: the segment list is concatenated while re-encoding the video
stream with libx264. -/
def concatSegmentsArgsMulti (listPath outPath : String) : List String :=
  ["-y", "-f", "concat", "-safe", "0", "-i", listPath,
   "-c:v", "libx264", "-preset", "veryfast", "-pix_fmt", "yuv420p",
   "-movflags", "+faststart", "-threads", "1", outPath]

/-- The ffmpeg argument list of concatSegments in the fast single-clip
variant of src/server.js: stream-copy concatenation. -/
def concatSegmentsArgsFast (listPath outPath : String) : List String :=
  ["-y", "-f", "concat", "-safe", "0", "-i", listPath, "-c", "copy", outPath]

/-- The ffmpeg argument list of concatAudio (identical in both variants):
stream-copy concatenation of the narration files. -/
def concatAudioArgs (listPath outPath : String) : List String :=
  ["-y", "-f", "concat", "-safe", "0", "-i", listPath, "-c", "copy", outPath]

/-- Whether an ffmpeg argument list requests stream-copy for all streams,
that is, contains the adjacent pair -c copy. -/
def hasCopyCodec : List String → Bool
  | "-c" :: "copy" :: _ => true
  | _ :: rest => hasCopyCodec rest
  | [] => false

/-- C5 (amended): audio-stream assembly and the fast variant's video-stream
assembly are re-encode-free copy concatenations, but the multi-clip
variant's video-stream assembly re-encodes the concatenated video with
libx264 instead of copying it. -/
theorem concat_codec_amended (listPath outPath : String) :
    (∃ pre suf, concatAudioArgs listPath outPath = pre ++ ["-c", "copy"] ++ suf) ∧
    (∃ pre suf, concatSegmentsArgsFast listPath outPath = pre ++ ["-c", "copy"] ++ suf) ∧
    "libx264" ∈ concatSegmentsArgsMulti listPath outPath ∧
    "-c:v" ∈ concatSegmentsArgsMulti listPath outPath := by
  refine ⟨⟨["-y", "-f", "concat", "-safe", "0", "-i", listPath], [outPath], rfl⟩,
    ⟨["-y", "-f", "concat", "-safe", "0", "-i", listPath], [outPath], rfl⟩, ?_, ?_⟩
  · simp [concatSegmentsArgsMulti]
  · simp [concatSegmentsArgsMulti]

/-- C5 counterexample: the multi-clip variant's video concatenation does not
pass -c copy; it re-encodes with libx264, so timeline video assembly there is
not a re-encode-free concatenation. -/
theorem concatSegmentsMulti_not_copy_counterexample :
    hasCopyCodec (concatSegmentsArgsMulti "list.txt" "out.mp4") = false ∧
    "libx264" ∈ concatSegmentsArgsMulti "list.txt" "out.mp4" := by
  constructor
  · rfl
  · simp [concatSegmentsArgsMulti]

/-- The sequential scene loop of the /render handler: builds scene i from
request entry i, accumulating outputs in input order. The build function
abstracts buildSceneWithVoice applied at index i. -/
def renderLoop {σ α : Type} (build : ℕ → σ → α) : ℕ → List σ → List α
  | _, [] => []
  | i, s :: rest => build i s :: renderLoop build (i + 1) rest

/-- The /render handler's scene processing: take = scenes.slice(0, 60), then
build each scene in order. -/
def renderScenes {σ α : Type} (build : ℕ → σ → α) (scenes : List σ) : List α :=
  renderLoop build 0 (scenes.take 60)

theorem renderLoop_length {σ α : Type} (build : ℕ → σ → α) :
    ∀ (l : List σ) (j : ℕ), (renderLoop build j l).length = l.length := by
  intro l
  induction l with
  | nil => intro j; rfl
  | cons s rest ih =>
    intro j
    simp [renderLoop, ih]

theorem renderLoop_getElem {σ α : Type} (build : ℕ → σ → α) :
    ∀ (l : List σ) (j i : ℕ), (renderLoop build j l)[i]? = l[i]?.map (build (j + i)) := by
  intro l
  induction l with
  | nil => intro j i; rfl
  | cons s rest ih =>
    intro j i
    cases i with
    | zero => simp [renderLoop]
    | succ i =>
      simp only [renderLoop, List.getElem?_cons_succ]
      rw [ih (j + 1) i]
      have harith : j + 1 + i = j + (i + 1) := by omega
      rw [harith]

/-- C4: for an accepted scene list of length N with N at most the cap of 60,
the scene loop produces exactly N scene videos, and the i-th output is built
from the i-th scene request. -/
theorem renderScenes_order {σ α : Type} (build : ℕ → σ → α) (scenes : List σ)
    (hcap : scenes.length ≤ 60) :
    (renderScenes build scenes).length = scenes.length ∧
    ∀ i : ℕ, (renderScenes build scenes)[i]? = scenes[i]?.map (build i) := by
  unfold renderScenes
  rw [List.take_of_length_le hcap]
  refine ⟨renderLoop_length build scenes 0, ?_⟩
  intro i
  simpa using renderLoop_getElem build scenes 0 i

/-- Witness for C4 at a concrete two-scene request. -/
theorem renderScenes_order_witness :
    (renderScenes (fun i (s : String) => (s, i)) ["x", "y"]).length = 2 ∧
    ∀ i : ℕ, (renderScenes (fun i (s : String) => (s, i)) ["x", "y"])[i]? =
      (["x", "y"][i]?).map (fun s => (s, i)) := by
  have h := renderScenes_order (fun i (s : String) => (s, i)) ["x", "y"] (by norm_num)
  simpa using h

/-- One entry of a Pexels result's video_files array: pixel dimensions and
the downloadable link (an empty string models a missing link). -/
structure VideoFile where
  width : ℕ
  height : ℕ
  link : String
deriving DecidableEq

/-- One Pexels search result: its files and its declared clip duration. -/
structure Video where
  video_files : List VideoFile
  duration : ℚ
deriving DecidableEq

/-- The requested output orientation. -/
inductive Orient where
  | portrait
  | landscape
deriving DecidableEq

/-- The per-file orientation filter of pickVideoFileForOrientation:
height >= width for portrait, width >= height for landscape. -/
def matchesOrientation (orientation : Orient) (f : VideoFile) : Bool :=
  match orientation with
  | .portrait => f.width ≤ f.height
  | .landscape => f.height ≤ f.width

/-- Resolution of a file, the sort key of pickVideoFileForOrientation:
width times height. -/
def resolution (f : VideoFile) : ℕ := f.width * f.height

/-- The set pickVideoFileForOrientation actually sorts: the files matching
the requested orientation, or, when none match, the full unfiltered list. -/
def orientationSet (video : Video) (orientation : Orient) : List VideoFile :=
  let candidates := video.video_files.filter (matchesOrientation orientation)
  if candidates.isEmpty then video.video_files else candidates

/-- The descending-resolution comparator of pickVideoFileForOrientation. -/
def byResolutionDesc (a b : VideoFile) : Bool := resolution b ≤ resolution a

/-- File selection from pickVideoFileForOrientation in src/server.js: filter
by orientation with fallback to all files, sort by resolution descending and
take the first element (none when the result has no files at all, which in
JavaScript is the undefined candidates[0]). -/
def pickVideoFileForOrientation (video : Video) (orientation : Orient) : Option VideoFile :=
  ((orientationSet video orientation).mergeSort byResolutionDesc).head?

theorem orientationSet_ne_nil (video : Video) (orientation : Orient)
    (hne : video.video_files ≠ []) : orientationSet video orientation ≠ [] := by
  unfold orientationSet
  by_cases h : (video.video_files.filter (matchesOrientation orientation)).isEmpty
  · simpa [h] using hne
  · simp only [h, if_neg]
    simpa [List.isEmpty_iff] using h

/-- C6: for a result with at least one file, the selected file exists, it is
drawn from the orientation-matching set (or from the full list when no file
matches the orientation), and it has the greatest resolution in that set. -/
theorem pickVideoFileForOrientation_best (video : Video) (orientation : Orient)
    (hne : video.video_files ≠ []) :
    ∃ f, pickVideoFileForOrientation video orientation = some f ∧
      f ∈ orientationSet video orientation ∧
      ∀ g ∈ orientationSet video orientation, resolution g ≤ resolution f := by
  have hsne : orientationSet video orientation ≠ [] := orientationSet_ne_nil video orientation hne
  have hperm : ((orientationSet video orientation).mergeSort byResolutionDesc).Perm
      (orientationSet video orientation) := List.mergeSort_perm _ _
  have hsorted : List.Pairwise (fun a b => byResolutionDesc a b = true)
      ((orientationSet video orientation).mergeSort byResolutionDesc) := by
    apply List.sorted_mergeSort
    · intro a b c hab hbc
      simp only [byResolutionDesc, decide_eq_true_eq] at *
      exact le_trans hbc hab
    · intro a b
      simp only [byResolutionDesc]
      rcases le_total (resolution b) (resolution a) with h | h
      · simp [h]
      · simp [h]
  have hmne : (orientationSet video orientation).mergeSort byResolutionDesc ≠ [] := by
    intro h
    apply hsne
    have := hperm.length_eq
    rw [h] at this
    exact List.eq_nil_of_length_eq_zero this.symm
  obtain ⟨f, t, hft⟩ := List.exists_cons_of_ne_nil hmne
  refine ⟨f, ?_, ?_, ?_⟩
  · unfold pickVideoFileForOrientation
    rw [hft]
    rfl
  · rw [← hperm.mem_iff, hft]
    exact List.mem_cons_self f t
  · intro g hg
    rw [← hperm.mem_iff, hft] at hg
    rcases List.mem_cons.mp hg with h | h
    · rw [h]
    · rw [hft] at hsorted
      have := (List.pairwise_cons.mp hsorted).1 g h
      simpa [byResolutionDesc] using this

/-- Witness for C6 at a concrete result holding one portrait file and one
larger landscape file. -/
theorem pickVideoFileForOrientation_best_witness :
    ∃ f, pickVideoFileForOrientation ⟨[⟨100, 200, "p"⟩, ⟨300, 100, "l"⟩], 10⟩ .portrait = some f ∧
      f ∈ orientationSet ⟨[⟨100, 200, "p"⟩, ⟨300, 100, "l"⟩], 10⟩ .portrait ∧
      ∀ g ∈ orientationSet ⟨[⟨100, 200, "p"⟩, ⟨300, 100, "l"⟩], 10⟩ .portrait,
        resolution g ≤ resolution f :=
  pickVideoFileForOrientation_best ⟨[⟨100, 200, "p"⟩, ⟨300, 100, "l"⟩], 10⟩ .portrait (by simp)

/-- One entry of the oriented candidate array built in buildSceneWithVoice:
the picked file (undefined modelled as none) and the clip duration. -/
structure OrientedItem where
  file : Option VideoFile
  dur : ℚ
deriving DecidableEq

/-- The filter x.file && x.file.link of buildSceneWithVoice: the picked file
exists and its link is truthy (non-empty). -/
def fileUsable (x : OrientedItem) : Bool :=
  match x.file with
  | some f => f.link ≠ ""
  | none => false

/-- The descending-duration comparator (b.dur || 0) - (a.dur || 0) used to
rank candidates in buildSceneWithVoice. -/
def byDurDesc (a b : OrientedItem) : Bool := b.dur ≤ a.dur

/-- The ranked usable candidate pool of buildSceneWithVoice: map each result
to its picked file and duration, keep the usable ones, sort by duration
descending. -/
def orientedPool (pool : List Video) (orientation : Orient) : List OrientedItem :=
  ((pool.map fun v => ⟨pickVideoFileForOrientation v orientation, v.duration⟩).filter
    fileUsable).mergeSort byDurDesc

/-- The property access cand.file.link on a usable candidate. -/
def candLink (x : OrientedItem) : String :=
  match x.file with
  | some f => f.link
  | none => ""

/-- View of a usable oriented candidate as a selection candidate. -/
def toCand (x : OrientedItem) : Cand := ⟨candLink x, x.dur⟩

/-- How a scene-composition failure surfaces in JavaScript: either an Error
thrown with a message (the classified failures such as the no-results error),
or an unclassified TypeError from a property access on undefined. -/
inductive JsError where
  | thrown (msg : String)
  | typeErrorUndefined
deriving DecidableEq

/-- Footage selection of buildSceneWithVoice including its failure behaviour:
an empty result pool throws the no-results Error; a non-empty pool whose
usable candidate list is empty reaches the fallback expression
oriented[0].file.link, whose property access on the undefined oriented[0]
raises a TypeError. -/
def buildSceneSelect (minClipSec : ℚ) (maxClips : ℕ) (targetSec : ℚ) (pool : List Video)
    (orientation : Orient) : Except JsError (List (String × ℚ)) :=
  if pool.isEmpty then .error (.thrown "No stock videos for the scene query")
  else
    let oriented := (orientedPool pool orientation).map toCand
    match chooseLoop minClipSec maxClips oriented targetSec 0 with
    | [] =>
      match oriented with
      | [] => .error .typeErrorUndefined
      | c :: _ => .ok [(c.link, fallbackTake minClipSec targetSec c)]
    | chosen => .ok chosen

/-- C9: when the footage provider returns a non-empty pool but no result has
a usable downloadable file link, scene composition fails with the
unclassified TypeError of an undefined property access, and with none of the
thrown, classified errors. -/
theorem buildSceneSelect_typeError (minClipSec : ℚ) (maxClips : ℕ) (targetSec : ℚ)
    (pool : List Video) (orientation : Orient)
    (hpool : pool ≠ []) (hor : orientedPool pool orientation = []) :
    buildSceneSelect minClipSec maxClips targetSec pool orientation =
      .error .typeErrorUndefined ∧
    ∀ msg, buildSceneSelect minClipSec maxClips targetSec pool orientation ≠
      .error (.thrown msg) := by
  have h1 : buildSceneSelect minClipSec maxClips targetSec pool orientation =
      .error .typeErrorUndefined := by
    unfold buildSceneSelect
    simp [List.isEmpty_iff, hpool, hor, chooseLoop]
  refine ⟨h1, ?_⟩
  intro msg
  rw [h1]
  simp

/-- Witness for C9: a pool holding one result with an empty file list. -/
theorem buildSceneSelect_typeError_witness :
    buildSceneSelect 4 4 3 [⟨[], 5⟩] .portrait = .error .typeErrorUndefined ∧
    ∀ msg, buildSceneSelect 4 4 3 [⟨[], 5⟩] .portrait ≠ .error (.thrown msg) :=
  buildSceneSelect_typeError 4 4 3 [⟨[], 5⟩] .portrait (by simp)
    (by simp [orientedPool, pickVideoFileForOrientation, orientationSet, fileUsable])

/-- The punctuation class of the splitForTTS flush regex: . ! ? , ; : . -/
def isPunct (c : Char) : Bool :=
  c = Char.ofNat 46 || c = Char.ofNat 33 || c = Char.ofNat 63 ||
  c = Char.ofNat 44 || c = Char.ofNat 59 || c = Char.ofNat 58

/-- Whitespace as removed by the JavaScript String.trim used in splitForTTS
(the whitespace characters that occur in ASCII text). -/
def isJsSpace (c : Char) : Bool :=
  c = Char.ofNat 32 || c = Char.ofNat 9 || c = Char.ofNat 10 ||
  c = Char.ofNat 13 || c = Char.ofNat 11 || c = Char.ofNat 12

/-- JavaScript String.trim on a list of characters: drop whitespace from both
ends. -/
def jsTrim (s : List Char) : List Char :=
  ((s.dropWhile isJsSpace).reverse.dropWhile isJsSpace).reverse

/-- The character loop of splitForTTS: append each character to the buffer
and flush the trimmed buffer as a chunk when the buffer has reached maxLen
characters and its last character is in the punctuation class; after the
loop the trimmed non-empty remainder is pushed as a final chunk. -/
def splitLoop (maxLen : ℕ) : List Char → List Char → List (List Char)
  | [], buf => if jsTrim buf = [] then [] else [jsTrim buf]
  | c :: rest, buf =>
    if maxLen ≤ (buf ++ [c]).length ∧ isPunct c = true then
      jsTrim (buf ++ [c]) :: splitLoop maxLen rest []
    else
      splitLoop maxLen rest (buf ++ [c])

/-- splitForTTS from src/server.js: run the chunking loop over the trimmed
text; if it produced no parts, return the whole original text as the single
chunk. -/
def splitForTTS (text : List Char) (maxLen : ℕ) : List (List Char) :=
  let parts := splitLoop maxLen (jsTrim text) []
  if parts = [] then [text] else parts

/-- A chunk ends at a punctuation mark. -/
def endsPunct (l : List Char) : Prop :=
  ∃ c, l.getLast? = some c ∧ isPunct c = true

/-- A predicate holds for every element of a list except possibly the last. -/
def allButLast {α : Type} (P : α → Prop) : List α → Prop
  | [] => True
  | [_] => True
  | a :: b :: rest => P a ∧ allButLast P (b :: rest)

theorem allButLast_cons {α : Type} (P : α → Prop) (a : α) (t : List α)
    (h : allButLast P t) (ha : P a) : allButLast P (a :: t) := by
  cases t with
  | nil => trivial
  | cons b r => exact ⟨ha, h⟩

theorem mem_jsTrim {c : Char} {s : List Char} (h : c ∈ jsTrim s) : c ∈ s := by
  unfold jsTrim at h
  rw [List.mem_reverse] at h
  have h2 := (List.dropWhile_sublist isJsSpace (l := (s.dropWhile isJsSpace).reverse)).mem h
  rw [List.mem_reverse] at h2
  exact (List.dropWhile_sublist isJsSpace (l := s)).mem h2

theorem punct_not_space {c : Char} (h : isPunct c = true) : isJsSpace c = false := by
  simp only [isPunct, Bool.or_eq_true, decide_eq_true_eq] at h
  rcases h with ((((h | h) | h) | h) | h) | h <;> subst h <;> decide

theorem jsTrim_concat_getLast {c : Char} (hc : isJsSpace c = false) (buf : List Char) :
    (jsTrim (buf ++ [c])).getLast? = some c := by
  unfold jsTrim
  have hdrop : ∃ u, List.dropWhile isJsSpace (buf ++ [c]) = u ++ [c] := by
    rw [List.dropWhile_append]
    by_cases h : (List.dropWhile isJsSpace buf).isEmpty
    · refine ⟨[], ?_⟩
      simp [h, List.dropWhile, hc]
    · exact ⟨List.dropWhile isJsSpace buf, by simp [h]⟩
  obtain ⟨u, hu⟩ := hdrop
  rw [hu, List.reverse_append]
  simp only [List.reverse_cons, List.reverse_nil, List.nil_append, List.singleton_append]
  rw [List.dropWhile_cons_of_neg (by simp [hc])]
  rw [List.getLast?_reverse]
  rfl

theorem splitLoop_no_punct (maxLen : ℕ) :
    ∀ (l buf : List Char), (∀ c ∈ l, isPunct c = false) →
      splitLoop maxLen l buf = splitLoop maxLen [] (buf ++ l) := by
  intro l
  induction l with
  | nil => intro buf _; rw [List.append_nil]
  | cons c rest ih =>
    intro buf hnp
    have hc : isPunct c = false := hnp c (List.mem_cons_self c rest)
    have hcond : ¬ (maxLen ≤ (buf ++ [c]).length ∧ isPunct c = true) := by simp [hc]
    have hstep : splitLoop maxLen (c :: rest) buf = splitLoop maxLen rest (buf ++ [c]) := by
      simp only [splitLoop]
      rw [if_neg hcond]
    have harg : buf ++ c :: rest = (buf ++ [c]) ++ rest := by simp
    rw [hstep, ih (buf ++ [c]) (fun d hd => hnp d (List.mem_cons_of_mem c hd)), harg]

theorem splitLoop_allButLast (maxLen : ℕ) :
    ∀ (l buf : List Char), allButLast endsPunct (splitLoop maxLen l buf) := by
  intro l
  induction l with
  | nil =>
    intro buf
    unfold splitLoop
    by_cases h : jsTrim buf = []
    · simp [h, allButLast]
    · simp [h, allButLast]
  | cons c rest ih =>
    intro buf
    unfold splitLoop
    by_cases h : maxLen ≤ (buf ++ [c]).length ∧ isPunct c = true
    · rw [if_pos h]
      apply allButLast_cons _ _ _ (ih [])
      exact ⟨c, jsTrim_concat_getLast (punct_not_space h.2) buf, h.2⟩
    · rw [if_neg h]
      exact ih (buf ++ [c])

/-- C3 (amended): splitForTTS flushes a chunk at the first character that is
both at or beyond the maxLen boundary and a punctuation mark, so every chunk
except possibly the final remainder ends at a punctuation mark, and a text
containing no punctuation at all yields exactly one chunk; chunks are not
bounded by maxLen, since the flush waits for the next punctuation mark at or
after the boundary. -/
theorem splitForTTS_amended (text : List Char) (maxLen : ℕ) :
    ((∀ c ∈ text, isPunct c = false) → (splitForTTS text maxLen).length = 1) ∧
    allButLast endsPunct (splitForTTS text maxLen) := by
  constructor
  · intro hnp
    unfold splitForTTS
    rw [splitLoop_no_punct maxLen (jsTrim text) [] (fun c hc => hnp c (mem_jsTrim hc))]
    simp only [List.nil_append]
    unfold splitLoop
    by_cases h : jsTrim (jsTrim text) = []
    · rw [if_pos h]
      simp
    · rw [if_neg h]
      simp
  · unfold splitForTTS
    by_cases h : splitLoop maxLen (jsTrim text) [] = []
    · simp only [h, if_pos]
      simp [allButLast]
    · simp only [h, if_neg]
      simpa [h] using splitLoop_allButLast maxLen (jsTrim text) []

/-- Witness for C3 (amended) on the punctuation-free text ab. -/
theorem splitForTTS_amended_witness :
    (splitForTTS [Char.ofNat 97, Char.ofNat 98] 180).length = 1 ∧
    allButLast endsPunct (splitForTTS [Char.ofNat 97, Char.ofNat 98] 180) :=
  ⟨(splitForTTS_amended [Char.ofNat 97, Char.ofNat 98] 180).1 (by decide),
   (splitForTTS_amended [Char.ofNat 97, Char.ofNat 98] 180).2⟩

/-- A 200-character text made of two 100-character sentences, each ending in
a period: under a 180-character limit the loop cannot flush at the period at
position 100 (the buffer is still short) and flushes only at position 200. -/
def splitCounterexampleText : List Char :=
  List.replicate 99 (Char.ofNat 97) ++ [Char.ofNat 46] ++
  List.replicate 99 (Char.ofNat 97) ++ [Char.ofNat 46]

set_option maxRecDepth 40000 in
/-- C3 counterexample: on the two-sentence 200-character text the splitter
produces a single 200-character chunk, exceeding the 180-character maximum,
instead of breaking at the last punctuation mark at or before the limit. -/
theorem splitForTTS_overlong_counterexample :
    ∃ chunk ∈ splitForTTS splitCounterexampleText 180, 180 < chunk.length := by
  decide

/-- The backslash character. -/
def bsChar : Char := Char.ofNat 92

/-- The colon character. -/
def colonChar : Char := Char.ofNat 58

/-- The single-quote character. -/
def quoteChar : Char := Char.ofNat 39

/-- The percent character. -/
def percentChar : Char := Char.ofNat 37

/-- The opening bracket character. -/
def lbracketChar : Char := Char.ofNat 91

/-- The closing bracket character. -/
def rbracketChar : Char := Char.ofNat 93

/-- The comma character. -/
def commaChar : Char := Char.ofNat 44

/-- The newline character. -/
def newlineChar : Char := Char.ofNat 10

/-- The letter n, the body of the drawtext line-break escape. -/
def letterN : Char := Char.ofNat 110

/-- One String.replace pass with a global single-character pattern, as used
by sanitizeForDrawtext: every occurrence of the target character is replaced
by the replacement characters, in one left-to-right pass. -/
def replaceChar (target : Char) (repl : List Char) (s : List Char) : List Char :=
  s.flatMap fun c => if c = target then repl else [c]

/-- sanitizeForDrawtext from src/server.js (both variants agree): the chain
of replace passes escaping backslash, colon, quote, percent, comma, both
brackets, and converting newline to the drawtext line-break escape, applied
in source order. -/
def sanitizeForDrawtext (s : List Char) : List Char :=
  replaceChar newlineChar [bsChar, letterN]
    (replaceChar rbracketChar [bsChar, rbracketChar]
      (replaceChar lbracketChar [bsChar, lbracketChar]
        (replaceChar commaChar [bsChar, commaChar]
          (replaceChar percentChar [bsChar, percentChar]
            (replaceChar quoteChar [bsChar, quoteChar]
              (replaceChar colonChar [bsChar, colonChar]
                (replaceChar bsChar [bsChar, bsChar] s)))))))

/-- sanitizeForDrawtext from the legacy single-scene variant in
src/unnamed/part_000: it escapes only backslash, colon, quote and percent
and converts newline; it has no pass for comma or for the brackets. -/
def sanitizeForDrawtextLegacy (s : List Char) : List Char :=
  replaceChar newlineChar [bsChar, letterN]
    (replaceChar percentChar [bsChar, percentChar]
      (replaceChar quoteChar [bsChar, quoteChar]
        (replaceChar colonChar [bsChar, colonChar]
          (replaceChar bsChar [bsChar, bsChar] s))))

/-- The per-character escaping map realised by the multi-scene server's
sanitizeForDrawtext. -/
def escChar (c : Char) : List Char :=
  if c = bsChar ∨ c = colonChar ∨ c = quoteChar ∨ c = percentChar ∨
      c = commaChar ∨ c = lbracketChar ∨ c = rbracketChar then [bsChar, c]
  else if c = newlineChar then [bsChar, letterN]
  else [c]

/-- The per-character escaping map realised by the legacy variant's
sanitizeForDrawtext: comma and brackets are left unchanged. -/
def escCharLegacy (c : Char) : List Char :=
  if c = bsChar ∨ c = colonChar ∨ c = quoteChar ∨ c = percentChar then [bsChar, c]
  else if c = newlineChar then [bsChar, letterN]
  else [c]

theorem replaceChar_append (target : Char) (repl : List Char) (s t : List Char) :
    replaceChar target repl (s ++ t) = replaceChar target repl s ++ replaceChar target repl t := by
  simp [replaceChar]

theorem replaceChar_singleton (target : Char) (repl : List Char) (c : Char) :
    replaceChar target repl [c] = if c = target then repl else [c] := by
  simp [replaceChar]

theorem sanitizeForDrawtext_append (s t : List Char) :
    sanitizeForDrawtext (s ++ t) = sanitizeForDrawtext s ++ sanitizeForDrawtext t := by
  simp [sanitizeForDrawtext, replaceChar_append]

theorem sanitizeLegacy_append (s t : List Char) :
    sanitizeForDrawtextLegacy (s ++ t) =
      sanitizeForDrawtextLegacy s ++ sanitizeForDrawtextLegacy t := by
  simp [sanitizeForDrawtextLegacy, replaceChar_append]

theorem sanitize_singleton (c : Char) : sanitizeForDrawtext [c] = escChar c := by
  rcases eq_or_ne c bsChar with h1 | h1
  · subst h1; decide
  rcases eq_or_ne c colonChar with h2 | h2
  · subst h2; decide
  rcases eq_or_ne c quoteChar with h3 | h3
  · subst h3; decide
  rcases eq_or_ne c percentChar with h4 | h4
  · subst h4; decide
  rcases eq_or_ne c commaChar with h5 | h5
  · subst h5; decide
  rcases eq_or_ne c lbracketChar with h6 | h6
  · subst h6; decide
  rcases eq_or_ne c rbracketChar with h7 | h7
  · subst h7; decide
  rcases eq_or_ne c newlineChar with h8 | h8
  · subst h8; decide
  simp [sanitizeForDrawtext, replaceChar_singleton, escChar, h1, h2, h3, h4, h5, h6, h7, h8]

theorem sanitizeLegacy_singleton (c : Char) : sanitizeForDrawtextLegacy [c] = escCharLegacy c := by
  rcases eq_or_ne c bsChar with h1 | h1
  · subst h1; decide
  rcases eq_or_ne c colonChar with h2 | h2
  · subst h2; decide
  rcases eq_or_ne c quoteChar with h3 | h3
  · subst h3; decide
  rcases eq_or_ne c percentChar with h4 | h4
  · subst h4; decide
  rcases eq_or_ne c newlineChar with h8 | h8
  · subst h8; decide
  simp [sanitizeForDrawtextLegacy, replaceChar_singleton, escCharLegacy, h1, h2, h3, h4, h8]

theorem sanitizeForDrawtext_flatMap (s : List Char) :
    sanitizeForDrawtext s = s.flatMap escChar := by
  induction s with
  | nil => rfl
  | cons c rest ih =>
    have h : sanitizeForDrawtext (c :: rest) =
        sanitizeForDrawtext [c] ++ sanitizeForDrawtext rest := by
      simpa using sanitizeForDrawtext_append [c] rest
    rw [h, sanitize_singleton, ih, List.flatMap_cons]

theorem sanitizeLegacy_flatMap (s : List Char) :
    sanitizeForDrawtextLegacy s = s.flatMap escCharLegacy := by
  induction s with
  | nil => rfl
  | cons c rest ih =>
    have h : sanitizeForDrawtextLegacy (c :: rest) =
        sanitizeForDrawtextLegacy [c] ++ sanitizeForDrawtextLegacy rest := by
      simpa using sanitizeLegacy_append [c] rest
    rw [h, sanitizeLegacy_singleton, ih, List.flatMap_cons]

/-- C7 (amended): the multi-scene server's caption escaping maps each
character independently, replacing backslash, colon, single-quote, percent,
comma and both brackets with their backslash-escaped forms and newline with
the line-break escape; the legacy single-scene variant's escaping replaces
only backslash, colon, single-quote, percent and newline, leaving comma and
the brackets unchanged; both escapings are deterministic functions of their
input. -/
theorem sanitizeForDrawtext_amended :
    (∀ s, sanitizeForDrawtext s = s.flatMap escChar) ∧
    (∀ s, sanitizeForDrawtextLegacy s = s.flatMap escCharLegacy) ∧
    (∀ s t, s = t → sanitizeForDrawtext s = sanitizeForDrawtext t) :=
  ⟨sanitizeForDrawtext_flatMap, sanitizeLegacy_flatMap, fun _ _ h => h ▸ rfl⟩

/-- Witness for C7 (amended) at the one-character comma text. -/
theorem sanitizeForDrawtext_amended_witness :
    sanitizeForDrawtext [commaChar] = [commaChar].flatMap escChar ∧
    sanitizeForDrawtextLegacy [commaChar] = [commaChar].flatMap escCharLegacy ∧
    sanitizeForDrawtext [commaChar] = sanitizeForDrawtext [commaChar] :=
  ⟨sanitizeForDrawtext_amended.1 [commaChar], sanitizeForDrawtext_amended.2.1 [commaChar],
    sanitizeForDrawtext_amended.2.2 [commaChar] [commaChar] rfl⟩

/-- C7 counterexample: the legacy variant's caption escaping leaves a comma
unchanged rather than replacing it with its backslash-escaped form, so the
claim that caption escaping escapes comma and both brackets fails on the
escaping function of src/unnamed/part_000. -/
theorem sanitizeLegacy_comma_counterexample :
    sanitizeForDrawtextLegacy [commaChar] = [commaChar] ∧
    sanitizeForDrawtext [commaChar] = [bsChar, commaChar] ∧
    [commaChar] ≠ [bsChar, commaChar] := by
  refine ⟨?_, ?_, ?_⟩ <;> decide
